import Mathlib

/-!
Verification of the streaming-response renderer of a Telegram chatbot
(source: src/bot.py, function handle_message and its helpers).

Text is modelled as `List Char`.  The chained Python `str.replace` calls
that escape MarkdownV2 reserved characters (src/bot.py lines 129-165) are
embedded as `escape_chunk`; the streaming loop (lines 121-191) is embedded
as `processChunk` / `runLoop` / `finalize` / `handle`, with the outcomes of
the remote edit calls supplied by an oracle indexed by the number of edit
attempts made so far.
-/

namespace GeminiBot

/-- The backslash character used by the escaping transform. -/
def backslash : Char := '\\'

/-- The backtick character (U+0060), written via its code point. -/
def backtick : Char := Char.ofNat 96

/-- The left curly brace character (U+007B), written via its code point. -/
def lbrace : Char := Char.ofNat 123

/-- The right curly brace character (U+007D), written via its code point. -/
def rbrace : Char := Char.ofNat 125

/-- Python `str.replace` specialised to a single-character pattern `c`
replaced by the string `r`, over `List Char`. -/
def str_replace (c : Char) (r : List Char) : List Char → List Char
  | [] => []
  | x :: xs => (if x = c then r else [x]) ++ str_replace c r xs

/-- The escaping transform of src/bot.py lines 129-165: eighteen chained
`str.replace` calls, applied in source order (underscore first,
exclamation mark last). -/
def escape_chunk (s : List Char) : List Char :=
  str_replace '!' [backslash, '!']
    (str_replace '.' [backslash, '.']
      (str_replace rbrace [backslash, rbrace]
        (str_replace lbrace [backslash, lbrace]
          (str_replace '|' [backslash, '|']
            (str_replace '=' [backslash, '=']
              (str_replace '-' [backslash, '-']
                (str_replace '+' [backslash, '+']
                  (str_replace '#' [backslash, '#']
                    (str_replace '>' [backslash, '>']
                      (str_replace backtick [backslash, backtick]
                        (str_replace '~' [backslash, '~']
                          (str_replace ')' [backslash, ')']
                            (str_replace '(' [backslash, '(']
                              (str_replace ']' [backslash, ']']
                                (str_replace '[' [backslash, '[']
                                  (str_replace '*' [backslash, '*']
                                    (str_replace '_' [backslash, '_'] s)))))))))))))))))

/-- The eighteen reserved MarkdownV2 characters, in the order the source
replaces them. -/
def reservedChars : List Char :=
  ['_', '*', '[', ']', '(', ')', '~', backtick, '>', '#', '+', '-', '=', '|',
   lbrace, rbrace, '.', '!']

/-- Per-character escaping with respect to an arbitrary set (list) of
reserved characters: each reserved character gets one backslash prepended,
every other character is kept. -/
def escWith (L : List Char) : List Char → List Char
  | [] => []
  | x :: xs => (if x ∈ L then [backslash, x] else [x]) ++ escWith L xs

/-- The canonical per-character escaping map: prepend exactly one backslash
to each occurrence of one of the eighteen reserved characters, leave every
other character (including a pre-existing backslash) unchanged. -/
def escape_charwise : List Char → List Char
  | [] => []
  | c :: cs => (if c ∈ reservedChars then [backslash, c] else [c]) ++ escape_charwise cs

/-- Un-escaping per the target markup rules: a backslash that immediately
precedes a reserved character is removed (the reserved character is kept);
every other character is kept. -/
def unescape : List Char → List Char
  | [] => []
  | [c] => [c]
  | a :: b :: rest =>
    if a = backslash ∧ b ∈ reservedChars then b :: unescape rest
    else a :: unescape (b :: rest)
termination_by l => l.length

/-- Result of one `edit_message_text` call, as distinguished by the source:
success, the benign "Message is not modified" rejection, a malformed-content
rejection, or any other transport error. -/
inductive EditResult where
  | ok
  | notModified
  | malformed
  | other
deriving DecidableEq

/-- One attempted edit of the outgoing message: the text sent, whether it is
the final (post-stream) edit, and whether MarkdownV2 formatting was
requested (the source always requests it). -/
structure EditAttempt where
  text : List Char
  final : Bool
  markdown : Bool
deriving DecidableEq

/-- The loop state of handle_message: the accumulated escaped response,
the text of the last successful edit, the text currently displayed in the
chat, the list of edit attempts issued so far, and the number of warning
log lines emitted. -/
structure RunState where
  full_response_text : List Char
  last_sent_text : List Char
  displayed : List Char
  edits : List EditAttempt
  warnings : Nat
deriving DecidableEq

/-- The transient typing-cursor suffix " ▌" appended to intermediate edits. -/
def cursor : List Char := [' ', '▌']

/-- The placeholder message "🤔" sent before streaming starts. -/
def placeholder : List Char := ['🤔']

/-- The fixed apology reply sent by the outer exception handler. -/
def apology_text : List Char :=
  "Sorry, I encountered an error. Please try again or start a /new conversation.".data

/-- The buffer_size constant of src/bot.py line 125. -/
def buffer_size : Nat := 75

/-- State at the top of the streaming loop: nothing accumulated, nothing
sent, the placeholder displayed. -/
def initState : RunState := ⟨[], [], placeholder, [], 0⟩

/-- One iteration of the `for chunk in response_iterator` loop
(src/bot.py lines 127-182): escape the chunk, append it to
full_response_text, and if the unsent portion exceeds the buffer size,
attempt an edit with the cursor appended.  A successful edit updates
last_sent_text and the displayed text; a failed edit is swallowed, logging
a warning unless the error is "Message is not modified".  The oracle `o`
gives the outcome of the n-th edit attempt of the turn. -/
def processChunk (o : Nat → EditResult) (b : Nat) (st : RunState) (f : List Char) :
    RunState :=
  if (st.full_response_text ++ escape_chunk f).length - st.last_sent_text.length > b then
    match o st.edits.length with
    | .ok =>
      { full_response_text := st.full_response_text ++ escape_chunk f
        last_sent_text := st.full_response_text ++ escape_chunk f
        displayed := (st.full_response_text ++ escape_chunk f) ++ cursor
        edits := st.edits ++ [⟨(st.full_response_text ++ escape_chunk f) ++ cursor, false, true⟩]
        warnings := st.warnings }
    | .notModified =>
      { st with
        full_response_text := st.full_response_text ++ escape_chunk f
        edits := st.edits ++ [⟨(st.full_response_text ++ escape_chunk f) ++ cursor, false, true⟩] }
    | _ =>
      { st with
        full_response_text := st.full_response_text ++ escape_chunk f
        edits := st.edits ++ [⟨(st.full_response_text ++ escape_chunk f) ++ cursor, false, true⟩]
        warnings := st.warnings + 1 }
  else
    { st with full_response_text := st.full_response_text ++ escape_chunk f }

/-- The whole streaming loop over a list of fragments. -/
def runLoop (o : Nat → EditResult) (b : Nat) (frags : List (List Char)) : RunState :=
  frags.foldl (processChunk o b) initState

/-- Result of one handle_message turn: either the loop and the final edit
completed, or the outer exception handler replied with the apology text.
In both cases the loop state reached is carried along. -/
inductive Outcome where
  | success : RunState → Outcome
  | apology : List Char → RunState → Outcome
deriving DecidableEq

/-- The loop state carried by an outcome. -/
def Outcome.finalState : Outcome → RunState
  | .success st => st
  | .apology _ st => st

/-- Whether the outcome is the apology reply path. -/
def Outcome.isApology : Outcome → Bool
  | .success _ => false
  | .apology _ _ => true

/-- The final update after the loop (src/bot.py lines 184-191): if the
accumulated text differs from the last sent text, edit once more without
the cursor.  This edit is not guarded by a try/except, so any failure
propagates to the outer handler (lines 193-195), which replies with the
fixed apology text. -/
def finalize (o : Nat → EditResult) (st : RunState) : Outcome :=
  if st.full_response_text ≠ st.last_sent_text then
    match o st.edits.length with
    | .ok =>
      .success { st with
        displayed := st.full_response_text
        edits := st.edits ++ [⟨st.full_response_text, true, true⟩] }
    | _ =>
      .apology apology_text { st with
        edits := st.edits ++ [⟨st.full_response_text, true, true⟩] }
  else
    .success st

/-- One whole streaming turn: run the loop over the fragments; if the
generation stream itself raised (after yielding `frags`), the outer
handler replies with the apology text; otherwise perform the final
update. -/
def handle (o : Nat → EditResult) (b : Nat) (frags : List (List Char))
    (stream_fails : Bool) : Outcome :=
  if stream_fails then .apology apology_text (runLoop o b frags)
  else finalize o (runLoop o b frags)

/-- The chat_sessions map update at src/bot.py lines 102-103: insert a
session for the chat id if absent.  Sessions are modelled by their keys. -/
def ensure_session (sessions : List Nat) (chat_id : Nat) : List Nat :=
  if chat_id ∈ sessions then sessions else chat_id :: sessions

/-- The whole handle_message turn including the session map: the session
is created (if absent) before streaming, and no path of the function
removes it. -/
def handle_message (sessions : List Nat) (chat_id : Nat) (o : Nat → EditResult)
    (frags : List (List Char)) (stream_fails : Bool) : List Nat × Outcome :=
  (ensure_session sessions chat_id, handle o buffer_size frags stream_fails)

/-- Fragments paired with the delay (in arbitrary time units) since the
previous fragment.  The loop body of src/bot.py lines 127-182 never reads
a clock — its only timing effect is an unconditional 0.1 s sleep after a
successful edit — so the delays cannot influence the run and are
discarded. -/
def handle_timed (o : Nat → EditResult) (b : Nat)
    (timed_frags : List (Nat × List Char)) (stream_fails : Bool) : Outcome :=
  handle o b (timed_frags.map Prod.snd) stream_fails

/-- An edit oracle under which every edit succeeds. -/
def oracle_ok : Nat → EditResult := fun _ => .ok

/-- An edit oracle under which every edit is rejected as malformed. -/
def oracle_malformed : Nat → EditResult := fun _ => .malformed

/-- A single 76-character fragment: one character above the 75-character
buffer threshold, so that the loop flushes it with the cursor and the
final update is then skipped. -/
def c1_frag : List Char := List.replicate 76 'a'

/-- The fragment sequence of the size-threshold scenario. -/
def c8_frags : List (List Char) :=
  [['H', 'e', 'l'], ['l', 'o', ',', ' '], ['w', 'o', 'r', 'l', 'd', '!']]

/-- A slow stream: two short fragments, each arriving 1000 time units
after the previous one. -/
def slow_frags : List (Nat × List Char) :=
  [(1000, ['h', 'i']), (1000, [' ', 't', 'h', 'e', 'r', 'e'])]

lemma str_replace_append (c : Char) (r : List Char) (xs ys : List Char) :
    str_replace c r (xs ++ ys) = str_replace c r xs ++ str_replace c r ys := by
  induction xs with
  | nil => rfl
  | cons x xs ih => simp [str_replace, ih]

lemma escWith_nil (s : List Char) : escWith [] s = s := by
  induction s with
  | nil => rfl
  | cons x xs ih => simp [escWith, ih]

lemma escWith_append (L xs ys : List Char) :
    escWith L (xs ++ ys) = escWith L xs ++ escWith L ys := by
  induction xs with
  | nil => rfl
  | cons x xs ih => simp [escWith, ih]

lemma escWith_replace (c : Char) (L : List Char) (hc : c ∉ L) (hb : backslash ∉ L)
    (s : List Char) :
    escWith L (str_replace c [backslash, c] s) = escWith (c :: L) s := by
  induction s with
  | nil => rfl
  | cons x xs ih =>
    by_cases hx : x = c
    · subst hx
      simp [str_replace, escWith, escWith_append, hb, hc, ih]
    · simp [str_replace, escWith, hx, hc, ih]

lemma foldl_replace_escWith :
    ∀ (L : List Char), L.Nodup → backslash ∉ L → ∀ s : List Char,
      L.foldl (fun acc c => str_replace c [backslash, c] acc) s = escWith L s := by
  intro L
  induction L with
  | nil => intro _ _ s; simpa using (escWith_nil s).symm
  | cons c L ih =>
    intro hnd hb s
    have hnd' := List.nodup_cons.mp hnd
    have hbL : backslash ∉ L := fun h => hb (List.mem_cons_of_mem _ h)
    simp only [List.foldl_cons]
    rw [ih hnd'.2 hbL, escWith_replace c L hnd'.1 hbL]

lemma escape_chunk_eq_foldl (s : List Char) :
    escape_chunk s =
      reservedChars.foldl (fun acc c => str_replace c [backslash, c] acc) s := by
  simp only [reservedChars, List.foldl]
  rfl

lemma escape_charwise_eq_escWith (s : List Char) :
    escape_charwise s = escWith reservedChars s := by
  induction s with
  | nil => rfl
  | cons x xs ih => simp [escape_charwise, escWith, ih]

lemma reserved_nodup : reservedChars.Nodup := by decide

lemma backslash_not_reserved : backslash ∉ reservedChars := by decide

/-- The chained replaces of the source coincide with the canonical
per-character map. -/
lemma escape_chunk_charwise (s : List Char) : escape_chunk s = escape_charwise s := by
  rw [escape_chunk_eq_foldl,
    foldl_replace_escWith reservedChars reserved_nodup backslash_not_reserved,
    escape_charwise_eq_escWith]

lemma escape_charwise_append (xs ys : List Char) :
    escape_charwise (xs ++ ys) = escape_charwise xs ++ escape_charwise ys := by
  induction xs with
  | nil => rfl
  | cons x xs ih => simp [escape_charwise, ih]

lemma escape_chunk_append (xs ys : List Char) :
    escape_chunk (xs ++ ys) = escape_chunk xs ++ escape_chunk ys := by
  simp [escape_chunk_charwise, escape_charwise_append]

lemma escape_charwise_eq_nil {xs : List Char} (h : escape_charwise xs = []) : xs = [] := by
  cases xs with
  | nil => rfl
  | cons x xs =>
    by_cases hx : x ∈ reservedChars <;> simp [escape_charwise, hx] at h

lemma head_escape_not_reserved (xs : List Char) (b : Char) (rest : List Char)
    (h : escape_charwise xs = b :: rest) : b ∉ reservedChars := by
  cases xs with
  | nil => simp [escape_charwise] at h
  | cons x t =>
    by_cases hx : x ∈ reservedChars
    · simp [escape_charwise, hx] at h
      rw [← h.1]
      exact backslash_not_reserved
    · simp [escape_charwise, hx] at h
      rw [← h.1]
      exact hx

lemma unescape_escape_charwise (s : List Char) : unescape (escape_charwise s) = s := by
  induction s with
  | nil => simp [escape_charwise, unescape]
  | cons x xs ih =>
    by_cases hx : x ∈ reservedChars
    · have : escape_charwise (x :: xs) = backslash :: x :: escape_charwise xs := by
        simp [escape_charwise, hx]
      rw [this]
      rw [show unescape (backslash :: x :: escape_charwise xs)
            = x :: unescape (escape_charwise xs) by simp [unescape, hx]]
      rw [ih]
    · have hE : escape_charwise (x :: xs) = x :: escape_charwise xs := by
        simp [escape_charwise, hx]
      rw [hE]
      cases h : escape_charwise xs with
      | nil =>
        have hxs : xs = [] := escape_charwise_eq_nil h
        subst hxs
        simp [unescape]
      | cons b rest =>
        have hb : b ∉ reservedChars := head_escape_not_reserved xs b rest h
        rw [show unescape (x :: b :: rest) = x :: unescape (b :: rest) by
          simp [unescape, hb], ← h, ih]

lemma processChunk_full (o : Nat → EditResult) (b : Nat) (st : RunState) (f : List Char) :
    (processChunk o b st f).full_response_text
      = st.full_response_text ++ escape_chunk f := by
  unfold processChunk
  split
  · cases o st.edits.length <;> rfl
  · rfl

lemma processChunk_edits (o : Nat → EditResult) (b : Nat) (st : RunState) (f : List Char) :
    (processChunk o b st f).edits = st.edits ∨
    (processChunk o b st f).edits =
      st.edits ++ [⟨(st.full_response_text ++ escape_chunk f) ++ cursor, false, true⟩] := by
  unfold processChunk
  split
  · right; cases o st.edits.length <;> rfl
  · left; rfl

lemma foldl_full (o : Nat → EditResult) (b : Nat) (frags : List (List Char)) :
    ∀ st : RunState,
      (frags.foldl (processChunk o b) st).full_response_text
        = st.full_response_text ++ escape_chunk frags.flatten := by
  induction frags with
  | nil => intro st; simp [show escape_chunk [] = [] from rfl]
  | cons f fs ih =>
    intro st
    simp only [List.foldl_cons, List.flatten_cons]
    rw [ih, processChunk_full, escape_chunk_append, List.append_assoc]

lemma loop_edits_aux (o : Nat → EditResult) (b : Nat) :
    ∀ (rest : List (List Char)) (st : RunState) (done : List (List Char)),
      st.full_response_text = escape_chunk done.flatten →
      (∀ e ∈ st.edits, e.final = false ∧ e.markdown = true ∧
        ∃ k, k ≤ done.length ∧
          e.text = escape_chunk (List.take k done).flatten ++ cursor) →
      ∀ e ∈ (rest.foldl (processChunk o b) st).edits,
        e.final = false ∧ e.markdown = true ∧
        ∃ k, k ≤ (done ++ rest).length ∧
          e.text = escape_chunk (List.take k (done ++ rest)).flatten ++ cursor := by
  intro rest
  induction rest with
  | nil =>
    intro st done hfull hedits e he
    simp only [List.foldl_nil] at he
    obtain ⟨h1, h2, k, hk, ht⟩ := hedits e he
    exact ⟨h1, h2, k, by simpa using hk, by simpa using ht⟩
  | cons f fs ih =>
    intro st done hfull hedits e he
    simp only [List.foldl_cons] at he
    have hfull' : (processChunk o b st f).full_response_text
        = escape_chunk (done ++ [f]).flatten := by
      rw [processChunk_full, hfull, List.flatten_append, escape_chunk_append]
      simp [show escape_chunk [] = [] from rfl]
    have hold : ∀ e ∈ st.edits, e.final = false ∧ e.markdown = true ∧
        ∃ k, k ≤ (done ++ [f]).length ∧
          e.text = escape_chunk (List.take k (done ++ [f])).flatten ++ cursor := by
      intro e' he'
      obtain ⟨h1, h2, k, hk, ht⟩ := hedits e' he'
      refine ⟨h1, h2, k, ?_, ?_⟩
      · simp only [List.length_append]; omega
      · rw [List.take_append_of_le_length hk]; exact ht
    have hedits' : ∀ e ∈ (processChunk o b st f).edits,
        e.final = false ∧ e.markdown = true ∧
        ∃ k, k ≤ (done ++ [f]).length ∧
          e.text = escape_chunk (List.take k (done ++ [f])).flatten ++ cursor := by
      intro e' he'
      rcases processChunk_edits o b st f with hpe | hpe
      · rw [hpe] at he'
        exact hold e' he'
      · rw [hpe] at he'
        rcases List.mem_append.mp he' with h | h
        · exact hold e' h
        · have heq : e' = ⟨(st.full_response_text ++ escape_chunk f) ++ cursor, false, true⟩ :=
            List.mem_singleton.mp h
          subst heq
          refine ⟨rfl, rfl, (done ++ [f]).length, le_refl _, ?_⟩
          rw [List.take_length (done ++ [f]), List.flatten_append, escape_chunk_append, hfull]
          simp [show escape_chunk [] = [] from rfl]
    have hc := ih (processChunk o b st f) (done ++ [f]) hfull' hedits' e he
    simpa [List.append_assoc] using hc

lemma runLoop_edits (o : Nat → EditResult) (b : Nat) (frags : List (List Char)) :
    ∀ e ∈ (runLoop o b frags).edits,
      e.final = false ∧ e.markdown = true ∧ ∃ k, k ≤ frags.length ∧
        e.text = escape_chunk (List.take k frags).flatten ++ cursor := by
  intro e he
  have hc := loop_edits_aux o b frags initState [] rfl
    (by intro e' he'; simp [initState] at he') e he
  simpa using hc

lemma finalize_edits (o : Nat → EditResult) (st : RunState) :
    (finalize o st).finalState.edits = st.edits ∨
    (finalize o st).finalState.edits = st.edits ++ [⟨st.full_response_text, true, true⟩] := by
  unfold finalize
  split
  · cases o st.edits.length <;> simp [Outcome.finalState]
  · left; rfl

lemma loop_edit_goal (o : Nat → EditResult) (b : Nat) (frags : List (List Char))
    (e : EditAttempt) (he : e ∈ (runLoop o b frags).edits) :
    e.markdown = true ∧ ∃ k, k ≤ frags.length ∧
      e.text = escape_chunk (List.take k frags).flatten ++
        (if e.final then [] else cursor) ∧
      (e.final = true → k = frags.length) := by
  obtain ⟨h1, h2, k, hk, ht⟩ := runLoop_edits o b frags e he
  refine ⟨h2, k, hk, ?_, ?_⟩
  · simp only [h1, Bool.false_eq_true, if_false]
    exact ht
  · intro hab
    rw [h1] at hab
    exact absurd hab (by simp)

/-- C10: the chained sequence of eighteen replace operations used for
escaping is extensionally equal to the canonical per-character map that
prepends one backslash to each reserved character and leaves every other
character, including a pre-existing backslash, unchanged. -/
theorem chained_replaces_eq_charwise_map (s : List Char) :
    escape_chunk s = escape_charwise s :=
  escape_chunk_charwise s

/-- C7: for every input string, applying the escaping transform and then
un-escaping per the target markup rules recovers the original string
exactly. -/
theorem escape_then_unescape_id (s : List Char) :
    unescape (escape_chunk s) = s := by
  rw [escape_chunk_charwise]
  exact unescape_escape_charwise s

/-- C6: for every fragment sequence and every flush of the run, the text
sent in that flush equals the escaping transform applied to the whole
concatenation of the fragments received up to that flush (followed by the
cursor on intermediate flushes only), for every buffer size, edit-outcome
oracle and fragment boundary placement; the accumulated text after any
prefix of the stream likewise equals the escape of that whole prefix. -/
theorem flush_text_escapes_whole_accumulation (o : Nat → EditResult) (b : Nat)
    (frags : List (List Char)) (sf : Bool) :
    (∀ k : Nat, (runLoop o b (List.take k frags)).full_response_text
        = escape_chunk (List.take k frags).flatten) ∧
    ∀ e, e ∈ (handle o b frags sf).finalState.edits →
      e.markdown = true ∧ ∃ k, k ≤ frags.length ∧
        e.text = escape_chunk (List.take k frags).flatten ++
          (if e.final then [] else cursor) ∧
        (e.final = true → k = frags.length) := by
  constructor
  · intro k
    have h := foldl_full o b (List.take k frags) initState
    simpa [runLoop, initState] using h
  · intro e he
    cases sf with
    | true =>
      have hh : (handle o b frags true).finalState.edits = (runLoop o b frags).edits := rfl
      rw [hh] at he
      exact loop_edit_goal o b frags e he
    | false =>
      have hh : handle o b frags false = finalize o (runLoop o b frags) := rfl
      rw [hh] at he
      rcases finalize_edits o (runLoop o b frags) with hfe | hfe
      · rw [hfe] at he
        exact loop_edit_goal o b frags e he
      · rw [hfe] at he
        rcases List.mem_append.mp he with h | h
        · exact loop_edit_goal o b frags e h
        · have heq : e = ⟨(runLoop o b frags).full_response_text, true, true⟩ :=
            List.mem_singleton.mp h
          subst heq
          refine ⟨rfl, frags.length, le_refl _, ?_, fun _ => rfl⟩
          have hf := foldl_full o b frags initState
          simp only [List.take_length frags]
          simpa [runLoop, initState] using hf

/-- Witness for C6 at a concrete run: one fragment "a" with buffer size 0
produces one intermediate flush whose text is "a" plus the cursor. -/
theorem flush_text_escapes_whole_accumulation_witness :
    (⟨['a'] ++ cursor, false, true⟩ : EditAttempt).markdown = true ∧
    ∃ k, k ≤ ([['a']] : List (List Char)).length ∧
      (⟨['a'] ++ cursor, false, true⟩ : EditAttempt).text
        = escape_chunk (List.take k [['a']]).flatten ++
          (if (⟨['a'] ++ cursor, false, true⟩ : EditAttempt).final then [] else cursor) ∧
      ((⟨['a'] ++ cursor, false, true⟩ : EditAttempt).final = true
        → k = ([['a']] : List (List Char)).length) :=
  (flush_text_escapes_whole_accumulation oracle_ok 0 [['a']] false).2
    ⟨['a'] ++ cursor, false, true⟩ (by decide)

/-- C3 (counterexample): the claim that a flush is eventually triggered by
elapsed time alone is false.  Two short fragments arriving 1000 time units
apart cause no intermediate edit at all: only the single final (post-stream)
edit is issued, even though the pending text stays below the buffer
threshold throughout. -/
theorem no_time_triggered_flush :
    ((handle_timed oracle_ok buffer_size slow_frags false).finalState.edits.filter
        (fun e => !e.final)) = [] ∧
    (handle_timed oracle_ok buffer_size slow_frags false).finalState.edits.length = 1 ∧
    (handle_timed oracle_ok buffer_size slow_frags
        false).finalState.full_response_text.length ≤ buffer_size := by
  decide

/-- C3 (amended): an intermediate edit is attempted exactly when, after
appending the escaped fragment, the length of the accumulated text exceeds
the length of the last sent text by more than the buffer size; the
decision depends on nothing else (in particular not on time). -/
theorem intermediate_flush_iff_size (o : Nat → EditResult) (b : Nat)
    (st : RunState) (f : List Char) :
    (processChunk o b st f).edits.length =
      st.edits.length +
        (if (st.full_response_text ++ escape_chunk f).length
              - st.last_sent_text.length > b
          then 1 else 0) := by
  unfold processChunk
  split
  · rename_i h
    cases o st.edits.length <;> simp [h]
  · rename_i h
    simp [h]

/-- C5: when an intermediate edit fails, the fragment is still accumulated
into full_response_text exactly as on success, last_sent_text and the
displayed text are unchanged (the flush is skipped), exactly one edit
attempt is recorded (no retry), and a warning is logged unless the failure
is the benign "Message is not modified" rejection, which is silently
ignored. -/
theorem intermediate_edit_failure_skipped (o : Nat → EditResult) (b : Nat)
    (st : RunState) (f : List Char)
    (hc : (st.full_response_text ++ escape_chunk f).length
            - st.last_sent_text.length > b)
    (he : o st.edits.length ≠ EditResult.ok) :
    processChunk o b st f =
      { st with
        full_response_text := st.full_response_text ++ escape_chunk f
        edits := st.edits ++
          [⟨(st.full_response_text ++ escape_chunk f) ++ cursor, false, true⟩]
        warnings := st.warnings +
          (if o st.edits.length = EditResult.notModified then 0 else 1) } := by
  unfold processChunk
  rw [if_pos hc]
  cases h : o st.edits.length with
  | ok => exact absurd h he
  | notModified => simp [h]
  | malformed => simp [h]
  | other => simp [h]

/-- Witness for C5 at a concrete input: a malformed rejection of the first
intermediate edit of fragment "a" with buffer size 0. -/
theorem intermediate_edit_failure_skipped_witness :
    processChunk oracle_malformed 0 initState ['a'] =
      { initState with
        full_response_text := initState.full_response_text ++ escape_chunk ['a']
        edits := initState.edits ++
          [⟨(initState.full_response_text ++ escape_chunk ['a']) ++ cursor, false, true⟩]
        warnings := initState.warnings +
          (if oracle_malformed initState.edits.length = EditResult.notModified
            then 0 else 1) } :=
  intermediate_edit_failure_skipped oracle_malformed 0 initState ['a']
    (by decide) (by decide)

/-- C4 (counterexample): the claim that a malformed final flush is retried
once with formatting disabled is false.  With every edit rejected as
malformed, the single fragment "a" leads to exactly one final edit attempt,
still requesting MarkdownV2, and the turn ends in the apology reply: the
user never receives the generated content. -/
theorem no_plain_text_retry_on_final :
    handle oracle_malformed 75 [['a']] false =
      Outcome.apology apology_text
        ⟨['a'], [], placeholder, [⟨['a'], true, true⟩], 0⟩ := by
  decide

/-- C4 (amended): if the final edit fails — with a malformed-content error
or any other error — no retry of any kind is performed: exactly one final
attempt (with markdown formatting) is recorded and the exception propagates
to the outer handler, which replies with the fixed apology text. -/
theorem final_edit_failure_apologizes (o : Nat → EditResult) (b : Nat)
    (frags : List (List Char))
    (h1 : (runLoop o b frags).full_response_text
            ≠ (runLoop o b frags).last_sent_text)
    (h2 : o (runLoop o b frags).edits.length ≠ EditResult.ok) :
    handle o b frags false =
      Outcome.apology apology_text
        { runLoop o b frags with
          edits := (runLoop o b frags).edits ++
            [⟨(runLoop o b frags).full_response_text, true, true⟩] } := by
  have hh : handle o b frags false = finalize o (runLoop o b frags) := rfl
  rw [hh]
  unfold finalize
  rw [if_pos h1]
  cases h : o (runLoop o b frags).edits.length with
  | ok => exact absurd h h2
  | notModified => rfl
  | malformed => rfl
  | other => rfl

/-- Witness for C4 (amended) at a concrete input: the run of the
counterexample, applied through the general theorem. -/
theorem final_edit_failure_apologizes_witness :
    handle oracle_malformed 75 [['a']] false =
      Outcome.apology apology_text
        { runLoop oracle_malformed 75 [['a']] with
          edits := (runLoop oracle_malformed 75 [['a']]).edits ++
            [⟨(runLoop oracle_malformed 75 [['a']]).full_response_text, true, true⟩] } :=
  final_edit_failure_apologizes oracle_malformed 75 [['a']]
    (by decide) (by decide)

/-- C1 (code evaluated at the failing input): on a single error-free
76-character fragment the turn completes successfully, yet the displayed
text is the escaped text *with* the cursor still appended — not the
escaping transform of the concatenated fragments — because the final
update is skipped when full_response_text equals last_sent_text even
though the displayed message still carries the cursor. -/
theorem final_text_keeps_cursor :
    ((handle_message [] 0 oracle_ok [c1_frag] false).2).isApology = false ∧
    ((handle_message [] 0 oracle_ok [c1_frag] false).2).finalState.displayed
      = escape_chunk ([c1_frag] : List (List Char)).flatten ++ cursor ∧
    ((handle_message [] 0 oracle_ok [c1_frag] false).2).finalState.displayed
      ≠ escape_chunk ([c1_frag] : List (List Char)).flatten := by
  decide

/-- C2 (code evaluated at the failing input): on a single error-free
76-character fragment no final flush is performed at all — the only edit
of the run is the intermediate flush — and the message left displayed is
the accumulated text followed by the cursor. -/
theorem final_flush_skipped :
    (((handle_message [] 0 oracle_ok [c1_frag] false).2).finalState.edits.filter
        (fun e => e.final)) = [] ∧
    ((handle_message [] 0 oracle_ok [c1_frag] false).2).finalState.edits.length = 1 ∧
    ((handle_message [] 0 oracle_ok [c1_frag] false).2).finalState.displayed
      = ((handle_message [] 0 oracle_ok
            [c1_frag] false).2).finalState.full_response_text ++ cursor := by
  decide

/-- C8 (counterexample): with fragments ["Hel", "lo, ", "world!"], buffer
size 4 and all edits succeeding, the run performs two intermediate flushes
and zero final flushes — not one of each as claimed. -/
theorem scenario_two_intermediate_flushes :
    ((handle oracle_ok 4 c8_frags false).finalState.edits.filter
        (fun e => !e.final)).length = 2 ∧
    ((handle oracle_ok 4 c8_frags false).finalState.edits.filter
        (fun e => e.final)).length = 0 := by
  decide

/-- C8 (amended): the run flushes "Hello, " plus cursor after the second
fragment, then "Hello, world\\!" (exclamation mark escaped) plus cursor
after the third fragment (7 pending characters > 4), and the final update
is skipped because the accumulated text equals the last sent text, so the
cursor remains displayed. -/
theorem scenario_exact_run :
    handle oracle_ok 4 c8_frags false =
      Outcome.success
        ⟨['H', 'e', 'l', 'l', 'o', ',', ' ', 'w', 'o', 'r', 'l', 'd', backslash, '!'],
         ['H', 'e', 'l', 'l', 'o', ',', ' ', 'w', 'o', 'r', 'l', 'd', backslash, '!'],
         ['H', 'e', 'l', 'l', 'o', ',', ' ', 'w', 'o', 'r', 'l', 'd', backslash, '!']
           ++ cursor,
         [⟨['H', 'e', 'l', 'l', 'o', ',', ' '] ++ cursor, false, true⟩,
          ⟨['H', 'e', 'l', 'l', 'o', ',', ' ', 'w', 'o', 'r', 'l', 'd', backslash, '!']
             ++ cursor, false, true⟩],
         0⟩ := by
  decide

/-- C9: when the generation source yields zero fragments and then raises,
the outer handler replies with the fixed apology text, no edit beyond the
placeholder is performed (the displayed message is still the placeholder),
and the session for the chat id is present in the session map afterwards,
so the turn can be retried. -/
theorem upstream_error_apology (sessions : List Nat) (chat_id : Nat)
    (o : Nat → EditResult) :
    (handle_message sessions chat_id o [] true).2
        = Outcome.apology apology_text initState ∧
    ((handle_message sessions chat_id o [] true).2).finalState.edits = [] ∧
    ((handle_message sessions chat_id o [] true).2).finalState.displayed
        = placeholder ∧
    chat_id ∈ (handle_message sessions chat_id o [] true).1 := by
  refine ⟨rfl, rfl, rfl, ?_⟩
  by_cases h : chat_id ∈ sessions
  · simp [handle_message, ensure_session, h]
  · simp [handle_message, ensure_session, h]

end GeminiBot
